import Mathlib

/-!
# Verification of the nestif nested-if complexity checker

Shallow embedding of the `nestif` package (file `nestif.go`, the revision
whose visitor carries an `elseifs` marker set): the complexity-scoring
visitor, the per-statement if-enumeration (`checkFunc` via `ast.Inspect`),
the per-file `Check` entry point, message formatting and the optional
debug sink.

Modelling notes (the sources of each definition are the Go functions of
the same name):

* Go AST statements are modelled by `Stmt`.  An `ifStmt` carries its
  source position and its condition; the condition is represented by the
  outcome of the external pretty-printer (`some text` when
  `printer.Fprint` succeeds, `none` when it fails), since scoring never
  inspects the condition and only its rendered text is observable.
  `block` models `*ast.BlockStmt`, `funcLit` a statement containing a
  function literal, and `other` any other statement node together with
  its child statements; `ast.Inspect` and `ast.Walk` descend uniformly
  through all three.
* The visitor's `elseifs map[ast.Node]bool` is written exactly once for a
  node — immediately before walking that node as an `else`-continuation —
  and read exactly once, when `incComplexity` visits that node; in a tree
  walk every node is visited once, so the map is equivalent to the
  boolean argument `isElseif` passed to `walk`.
* Go `int` fields `complexity` and `nesting` are modelled by `Int`
  (no overflow is relevant to any claim).
* The debug writer is modelled by a `Bool` (sink attached or not) and the
  bytes written to the sink by a `List String` returned alongside the
  checker; `fmt.Fprintf`'s formatted error text is abstracted to the
  fixed message prefix, the error value being external.
-/

namespace Nestif

/-- `token.Position`: where an issue was found. -/
structure Position where
  filename : String
  offset : Nat
  line : Nat
  column : Nat
deriving DecidableEq, Repr

/-- Go AST statements, restricted to the structure the checker observes.
`ifStmt pos cond body els` is `*ast.IfStmt` (`body` the statement list of
its `Body` block, `els` its `Else` field, `none` when absent); `block` is
`*ast.BlockStmt`; `funcLit` is a statement containing a function literal
whose body is the given list; `other` is any other statement node with
the given child statements. -/
inductive Stmt where
  | ifStmt (pos : Position) (cond : Option String) (body : List Stmt) (els : Option Stmt)
  | block (stmts : List Stmt)
  | funcLit (body : List Stmt)
  | other (children : List Stmt)
deriving Repr

/-- `Issue` represents an issue of a root if statement that has nested ifs. -/
structure Issue where
  pos : Position
  complexity : Int
  message : String
deriving DecidableEq, Repr

/-- `Checker` finds nested if statements.  `debugWriter` is `true` when a
debug sink is attached (`DebugMode(w)` was called). -/
structure Checker where
  MinComplexity : Int
  debugWriter : Bool
  issues : List Issue
deriving Repr

/-- The visitor state: running complexity and current nesting depth.
The `elseifs` marker set is modelled by the `isElseif` argument of
`walk` (see the module docstring). -/
structure visitor where
  complexity : Int
  nesting : Int
deriving DecidableEq, Repr

/-- `newVisitor`: fresh visitor with zero complexity and nesting. -/
def newVisitor : visitor := ⟨0, 0⟩

mutual
/-- `ast.Walk(v, n)` driven by `visitor.Visit` and `incComplexity`:
for an `*ast.IfStmt` the visitor adds 1 when the node was marked as an
`else if` continuation (`isElseif`) and `nesting` otherwise, walks the
then-block one level deeper, then handles `Else`: a plain block adds 1
and is walked one level deeper; an if statement is marked and walked as
an `else if` continuation at the current depth.  Every other node is
traversed transparently. -/
def walk (v : visitor) (isElseif : Bool) : Stmt → visitor
  | Stmt.ifStmt _ _ body els =>
    let v1 : visitor := ⟨v.complexity + (if isElseif then 1 else v.nesting), v.nesting⟩
    let v2 : visitor := ⟨v1.complexity, v1.nesting + 1⟩
    let v3 := walkList v2 body
    let v4 : visitor := ⟨v3.complexity, v3.nesting - 1⟩
    match els with
    | some (Stmt.block ss) =>
      let v5 : visitor := ⟨v4.complexity + 1, v4.nesting + 1⟩
      let v6 := walkList v5 ss
      ⟨v6.complexity, v6.nesting - 1⟩
    | some (Stmt.ifStmt p c b e) => walk v4 true (Stmt.ifStmt p c b e)
    | some (Stmt.funcLit _) => v4
    | some (Stmt.other _) => v4
    | none => v4
  | Stmt.block ss => walkList v ss
  | Stmt.funcLit ss => walkList v ss
  | Stmt.other ss => walkList v ss

/-- Walking the children of a non-if node: each child statement is walked
in order, none of them marked as an `else if` continuation. -/
def walkList (v : visitor) : List Stmt → visitor
  | [] => v
  | s :: ss => walkList (walk v false s) ss
end

/-- The score `checkIf` computes for a statement: walk it with a fresh
visitor and read off the final complexity. -/
def scoreIf (s : Stmt) : Int := (walk newVisitor false s).complexity

mutual
/-- The if statements located by `checkFunc`'s `ast.Inspect` callback,
in pre-order: the callback returns `false` on an `*ast.IfStmt` (so
nothing inside a located if is enumerated again) and `true` on every
other node, descending into all children — including the bodies of
function literals. -/
def findIfs : Stmt → List Stmt
  | Stmt.ifStmt p c b e => [Stmt.ifStmt p c b e]
  | Stmt.block ss => findIfsList ss
  | Stmt.funcLit ss => findIfsList ss
  | Stmt.other ss => findIfsList ss

/-- `findIfs` over a statement list, in order. -/
def findIfsList : List Stmt → List Stmt
  | [] => []
  | s :: ss => findIfs s ++ findIfsList ss
end

/-- A top-level declaration of a parsed file: a function declaration
(whose body is `none` for a body-less declaration) or any other
declaration. -/
inductive Decl where
  | funcDecl (body : Option (List Stmt))
  | other
deriving Repr

/-- A parsed file is its list of top-level declarations. -/
abbrev File := List Decl

/-- `errformat`: `"<file>:<line>:<col>: <msg>"`. -/
def errformat (file : String) (line col : Nat) (msg : String) : String :=
  file ++ ":" ++ toString line ++ ":" ++ toString col ++ ": " ++ msg

/-- `Checker.debug`: writes the message iff a debug writer is attached;
the result is the list of strings written to the sink. -/
def Checker.debug (c : Checker) (msg : String) : List String :=
  if c.debugWriter then [msg] else []

/-- `Checker.makeMessage`: renders the issue message.  The condition is
pretty-printed by the external printer; on failure (`cond = none`) the
failure is logged through `debug` and the buffer is left empty.  Returns
the message together with the bytes written to the debug sink. -/
def Checker.makeMessage (c : Checker) (file : String) (line col : Nat)
    (complexity : Int) (cond : Option String) : String × List String :=
  match cond with
  | some condText =>
    (errformat file line col
      ("`if " ++ condText ++ "` is nested (complexity: " ++ toString complexity ++ ")"), [])
  | none =>
    (errformat file line col
      ("`if ` is nested (complexity: " ++ toString complexity ++ ")"),
     c.debug "failed to convert condition into string")

/-- `Checker.checkIf`: walk the if statement with a fresh visitor and,
when the complexity reaches `MinComplexity`, append an `Issue`.  Returns
the updated checker and the debug-sink output.  (In the source the
argument is statically an `*ast.IfStmt`; other shapes do nothing.) -/
def Checker.checkIf (c : Checker) (s : Stmt) : Checker × List String :=
  match s with
  | Stmt.ifStmt pos cond _ _ =>
    let v := walk newVisitor false s
    if v.complexity < c.MinComplexity then (c, [])
    else
      let m := c.makeMessage pos.filename pos.line pos.column v.complexity cond
      ({ c with issues := c.issues ++ [⟨pos, v.complexity, m.1⟩] }, m.2)
  | _ => (c, [])

/-- One step of the `ast.Inspect` callback in `checkFunc`: run `checkIf`
on a located if statement, accumulating the debug-sink output. -/
def checkIfStep (acc : Checker × List String) (s : Stmt) : Checker × List String :=
  let r := acc.1.checkIf s
  (r.1, acc.2 ++ r.2)

/-- `Checker.checkFunc`: `ast.Inspect` over one top-level statement of a
function body, calling `checkIf` on each located if statement in
pre-order. -/
def Checker.checkFunc (c : Checker) (stmt : Stmt) : Checker × List String :=
  (findIfs stmt).foldl checkIfStep (c, [])

/-- One step of the loop in `Check` over a function body's top-level
statements: run `checkFunc`, accumulating the debug-sink output. -/
def checkFuncStep (acc : Checker × List String) (s : Stmt) : Checker × List String :=
  let r := acc.1.checkFunc s
  (r.1, acc.2 ++ r.2)

/-- One step of the `ast.Inspect` callback in `Check`: a function
declaration with a body has `checkFunc` run on each of its top-level
statements; everything else is skipped. -/
def checkDeclStep (acc : Checker × List String) (d : Decl) : Checker × List String :=
  match d with
  | Decl.funcDecl (some body) => body.foldl checkFuncStep acc
  | _ => acc

/-- `Checker.check`: refresh `issues`, then for every function
declaration with a body run `checkFunc` on each of its top-level
statements; the issues field of the resulting checker is the returned
issue slice. -/
def Checker.check (c : Checker) (f : File) : Checker × List String :=
  f.foldl checkDeclStep ({ c with issues := [] }, [])

/-- The issue slice `Check` returns. -/
def Checker.checkIssues (c : Checker) (f : File) : List Issue :=
  (c.check f).1.issues

mutual
/-- Pure form of the complexity contribution of walking one statement
(marked or not as an `else if` continuation) at nesting depth `n`;
`walk` is proved to add exactly this amount while restoring `nesting`
(`walk_delta`). -/
def delta (isElseif : Bool) : Stmt → Int → Int
  | Stmt.ifStmt _ _ body els, n =>
    (if isElseif then 1 else n) + deltaList body (n + 1) +
    (match els with
     | some (Stmt.block ss) => 1 + deltaList ss (n + 1)
     | some (Stmt.ifStmt p c b e) => delta true (Stmt.ifStmt p c b e) n
     | some (Stmt.funcLit _) => 0
     | some (Stmt.other _) => 0
     | none => 0)
  | Stmt.block ss, n => deltaList ss n
  | Stmt.funcLit ss, n => deltaList ss n
  | Stmt.other ss, n => deltaList ss n

/-- `delta` summed over a statement list. -/
def deltaList : List Stmt → Int → Int
  | [], _ => 0
  | s :: ss, n => delta false s n + deltaList ss n
end

/-- The message `makeMessage` produces, as a pure function of the
position, the pretty-printer outcome and the complexity. -/
def msgFor (pos : Position) (cond : Option String) (complexity : Int) : String :=
  match cond with
  | some condText =>
    errformat pos.filename pos.line pos.column
      ("`if " ++ condText ++ "` is nested (complexity: " ++ toString complexity ++ ")")
  | none =>
    errformat pos.filename pos.line pos.column
      ("`if ` is nested (complexity: " ++ toString complexity ++ ")")

/-- The issue `checkIf` contributes for one located statement under
minimum complexity `k`: none below the threshold (or for a non-if),
otherwise the issue with the statement's score and message. -/
def report (k : Int) (s : Stmt) : Option Issue :=
  match s with
  | Stmt.ifStmt pos cond _ _ =>
    if scoreIf s < k then none
    else some ⟨pos, scoreIf s, msgFor pos cond (scoreIf s)⟩
  | _ => none

/-- All if statements `Check` locates in a file, in order: for every
function declaration with a body, `findIfs` over each top-level
statement. -/
def locatedIfs (f : File) : List Stmt :=
  f.flatMap
    (fun d =>
      match d with
      | Decl.funcDecl (some body) => findIfsList body
      | _ => [])

/-- A linear `else if` chain with `k` continuations and empty branches:
`elseifChain 0` is `if {}` and `elseifChain (k+1)` is an if whose else
clause is `elseifChain k`. -/
def elseifChain (pos : Position) (cond : Option String) : Nat → Stmt
  | 0 => Stmt.ifStmt pos cond [] none
  | k + 1 => Stmt.ifStmt pos cond [] (some (elseifChain pos cond k))

mutual
/-- `true` iff the statement contains no if statement at any depth. -/
def ifFree : Stmt → Bool
  | Stmt.ifStmt _ _ _ _ => false
  | Stmt.block ss => ifFreeList ss
  | Stmt.funcLit ss => ifFreeList ss
  | Stmt.other ss => ifFreeList ss

/-- `ifFree` over a statement list. -/
def ifFreeList : List Stmt → Bool
  | [] => true
  | s :: ss => ifFree s && ifFreeList ss
end

/-! ## The walk computes `delta` and restores the nesting depth -/

mutual
/-- Walking any statement adds exactly `delta` to the complexity and
restores the nesting depth. -/
theorem walk_delta (b : Bool) (s : Stmt) (v : visitor) :
    walk v b s = ⟨v.complexity + delta b s v.nesting, v.nesting⟩ := by
  cases s with
  | ifStmt p c body els =>
    cases els with
    | none =>
      simp only [walk, delta, walkList_delta, visitor.mk.injEq]
      exact ⟨by ring_nf, by ring_nf⟩
    | some e =>
      cases e with
      | ifStmt p2 c2 b2 e2 =>
        simp only [walk, delta, walkList_delta,
          walk_delta true (Stmt.ifStmt p2 c2 b2 e2), visitor.mk.injEq]
        exact ⟨by ring_nf, by ring_nf⟩
      | block ss =>
        simp only [walk, delta, walkList_delta, visitor.mk.injEq]
        exact ⟨by ring_nf, by ring_nf⟩
      | funcLit ss =>
        simp only [walk, delta, walkList_delta, visitor.mk.injEq]
        exact ⟨by ring_nf, by ring_nf⟩
      | other ss =>
        simp only [walk, delta, walkList_delta, visitor.mk.injEq]
        exact ⟨by ring_nf, by ring_nf⟩
  | block ss => simp only [walk, delta, walkList_delta]
  | funcLit ss => simp only [walk, delta, walkList_delta]
  | other ss => simp only [walk, delta, walkList_delta]

/-- Walking a statement list adds exactly `deltaList` to the complexity
and restores the nesting depth. -/
theorem walkList_delta (ss : List Stmt) (v : visitor) :
    walkList v ss = ⟨v.complexity + deltaList ss v.nesting, v.nesting⟩ := by
  cases ss with
  | nil => simp [walkList, deltaList]
  | cons s ss =>
    simp only [walkList, deltaList, walk_delta false s v, walkList_delta ss,
      visitor.mk.injEq]
    exact ⟨by ring_nf, trivial⟩
end

/-- `scoreIf` in terms of the pure contribution function. -/
theorem scoreIf_delta (s : Stmt) : scoreIf s = delta false s 0 := by
  simp [scoreIf, newVisitor, walk_delta]

mutual
/-- At a non-negative nesting depth every contribution is non-negative. -/
theorem delta_nonneg (b : Bool) (s : Stmt) (n : Int) (hn : 0 ≤ n) :
    0 ≤ delta b s n := by
  cases s with
  | ifStmt p c body els =>
    have h1 : (0 : Int) ≤ if b then 1 else n := by cases b <;> simp [hn]
    have h2 : 0 ≤ deltaList body (n + 1) :=
      deltaList_nonneg body (n + 1) (by omega)
    cases els with
    | none => simp only [delta]; omega
    | some e =>
      cases e with
      | block ss =>
        have h3 := deltaList_nonneg ss (n + 1) (by omega)
        simp only [delta]
        omega
      | ifStmt p2 c2 b2 e2 =>
        have h3 := delta_nonneg true (Stmt.ifStmt p2 c2 b2 e2) n hn
        simp only [delta]
        omega
      | funcLit ss => simp only [delta]; omega
      | other ss => simp only [delta]; omega
  | block ss => simpa [delta] using deltaList_nonneg ss n hn
  | funcLit ss => simpa [delta] using deltaList_nonneg ss n hn
  | other ss => simpa [delta] using deltaList_nonneg ss n hn

/-- At a non-negative nesting depth a statement list's contribution is
non-negative. -/
theorem deltaList_nonneg (ss : List Stmt) (n : Int) (hn : 0 ≤ n) :
    0 ≤ deltaList ss n := by
  cases ss with
  | nil => simp [deltaList]
  | cons s ss =>
    have h1 := delta_nonneg false s n hn
    have h2 := deltaList_nonneg ss n hn
    simp only [deltaList]
    omega
end

/-- Every score `checkIf` computes is non-negative. -/
theorem scoreIf_nonneg (s : Stmt) : 0 ≤ scoreIf s := by
  rw [scoreIf_delta]
  exact delta_nonneg false s 0 le_rfl

mutual
/-- An if-free statement contributes nothing at any depth. -/
theorem ifFree_delta (s : Stmt) (n : Int) (h : ifFree s = true) :
    delta false s n = 0 := by
  cases s with
  | ifStmt p c body els => simp [ifFree] at h
  | block ss => simpa [delta] using ifFreeList_delta ss n (by simpa [ifFree] using h)
  | funcLit ss => simpa [delta] using ifFreeList_delta ss n (by simpa [ifFree] using h)
  | other ss => simpa [delta] using ifFreeList_delta ss n (by simpa [ifFree] using h)

/-- An if-free statement list contributes nothing at any depth. -/
theorem ifFreeList_delta (ss : List Stmt) (n : Int) (h : ifFreeList ss = true) :
    deltaList ss n = 0 := by
  cases ss with
  | nil => simp [deltaList]
  | cons s ss =>
    simp only [ifFreeList, Bool.and_eq_true] at h
    simp [deltaList, ifFree_delta s n h.1, ifFreeList_delta ss n h.2]
end

/-- `deltaList` distributes over list append. -/
theorem deltaList_append (ss1 ss2 : List Stmt) (n : Int) :
    deltaList (ss1 ++ ss2) n = deltaList ss1 n + deltaList ss2 n := by
  induction ss1 with
  | nil => simp [deltaList]
  | cons s ss ih =>
    simp only [List.cons_append, deltaList, List.append_eq] at ih ⊢
    rw [ih]; ring

/-- `findIfsList` distributes over list append. -/
theorem findIfsList_append (ss1 ss2 : List Stmt) :
    findIfsList (ss1 ++ ss2) = findIfsList ss1 ++ findIfsList ss2 := by
  induction ss1 with
  | nil => simp [findIfsList]
  | cons s ss ih =>
    simp only [List.cons_append, findIfsList, List.append_eq] at ih ⊢
    rw [ih, List.append_assoc]

/-! ## The checker pipeline reported issues, in closed form -/

/-- `checkIf` appends exactly the issue `report` describes and leaves
the configuration fields alone. -/
theorem checkIf_fst (c : Checker) (s : Stmt) :
    (c.checkIf s).1
      = { c with issues := c.issues ++ (report c.MinComplexity s).toList } := by
  cases s with
  | ifStmt pos cond body els =>
    simp only [Checker.checkIf, report, scoreIf]
    by_cases h : (walk newVisitor false (Stmt.ifStmt pos cond body els)).complexity
        < c.MinComplexity
    · simp [h]
    · cases cond with
      | none => simp [h, Checker.makeMessage, msgFor]
      | some t => simp [h, Checker.makeMessage, msgFor]
  | block ss => simp [Checker.checkIf, report]
  | funcLit ss => simp [Checker.checkIf, report]
  | other ss => simp [Checker.checkIf, report]

/-- With no debug sink attached, `checkIf` writes nothing. -/
theorem checkIf_snd_no_writer (c : Checker) (s : Stmt)
    (hw : c.debugWriter = false) : (c.checkIf s).2 = [] := by
  cases s with
  | ifStmt pos cond body els =>
    simp only [Checker.checkIf]
    by_cases h : (walk newVisitor false (Stmt.ifStmt pos cond body els)).complexity
        < c.MinComplexity
    · simp [h]
    · cases cond with
      | none => simp [h, Checker.makeMessage, Checker.debug, hw]
      | some t => simp [h, Checker.makeMessage]
  | block ss => simp [Checker.checkIf]
  | funcLit ss => simp [Checker.checkIf]
  | other ss => simp [Checker.checkIf]

/-- Folding `checkIf` over a list of located ifs appends exactly the
reported issues. -/
theorem foldIfs_fst (ifs : List Stmt) (c : Checker) (log : List String) :
    (ifs.foldl checkIfStep (c, log)).1
      = { c with issues := c.issues ++ ifs.filterMap (report c.MinComplexity) } := by
  induction ifs generalizing c log with
  | nil => simp [List.filterMap]
  | cons s ifs ih =>
    simp only [List.foldl_cons, checkIfStep, ih, checkIf_fst]
    cases hr : report c.MinComplexity s with
    | none => simp [List.filterMap_cons, hr]
    | some i => simp [List.filterMap_cons, hr]

/-- With no debug sink attached, folding `checkIf` writes nothing. -/
theorem foldIfs_snd_no_writer (ifs : List Stmt) (c : Checker) (log : List String)
    (hw : c.debugWriter = false) :
    (ifs.foldl checkIfStep (c, log)).2 = log := by
  induction ifs generalizing c log with
  | nil => simp
  | cons s ifs ih =>
    simp only [List.foldl_cons, checkIfStep]
    rw [checkIf_snd_no_writer c s hw, List.append_nil,
      ih _ _ (by rw [checkIf_fst]; exact hw)]

/-- `checkFunc` appends exactly the issues reported for the ifs it
locates. -/
theorem checkFunc_fst (c : Checker) (s : Stmt) :
    (c.checkFunc s).1
      = { c with issues := c.issues ++ (findIfs s).filterMap (report c.MinComplexity) } := by
  simp [Checker.checkFunc, foldIfs_fst]

/-- Folding `checkFunc` over a function body appends exactly the issues
reported for all located ifs of the body. -/
theorem foldFuncs_fst (body : List Stmt) (c : Checker) (log : List String) :
    (body.foldl checkFuncStep (c, log)).1
      = { c with issues :=
            c.issues ++ (findIfsList body).filterMap (report c.MinComplexity) } := by
  induction body generalizing c log with
  | nil => simp [findIfsList, List.filterMap]
  | cons s body ih =>
    simp only [List.foldl_cons, checkFuncStep, ih, checkFunc_fst, findIfsList,
      List.filterMap_append, List.append_assoc]

/-- With no debug sink attached, folding `checkFunc` writes nothing. -/
theorem foldFuncs_snd_no_writer (body : List Stmt) (c : Checker)
    (log : List String) (hw : c.debugWriter = false) :
    (body.foldl checkFuncStep (c, log)).2 = log := by
  induction body generalizing c log with
  | nil => simp
  | cons s body ih =>
    simp only [List.foldl_cons, checkFuncStep]
    have h2 : (c.checkFunc s).2 = [] := by
      simp only [Checker.checkFunc]
      exact foldIfs_snd_no_writer _ _ _ hw
    rw [h2, List.append_nil, ih _ _ (by rw [checkFunc_fst]; exact hw)]

/-- Folding the per-declaration step appends exactly the issues reported
for all ifs located in the file. -/
theorem foldDecls_fst (f : File) (c : Checker) (log : List String) :
    (f.foldl checkDeclStep (c, log)).1
      = { c with issues :=
            c.issues ++ (locatedIfs f).filterMap (report c.MinComplexity) } := by
  induction f generalizing c log with
  | nil => simp [locatedIfs, List.filterMap]
  | cons d f ih =>
    cases d with
    | funcDecl ob =>
      cases ob with
      | none => simp only [List.foldl_cons, checkDeclStep, ih, locatedIfs]; simp
      | some body =>
        simp only [List.foldl_cons, checkDeclStep, foldFuncs_fst, ih, locatedIfs,
          List.flatMap_cons, List.filterMap_append, List.append_assoc]
    | other => simp only [List.foldl_cons, checkDeclStep, ih, locatedIfs]; simp

/-- The checker `Check` leaves behind: configuration unchanged, issues
exactly those reported for the located ifs. -/
theorem check_fst (c : Checker) (f : File) :
    (c.check f).1
      = { c with issues := (locatedIfs f).filterMap (report c.MinComplexity) } := by
  simp [Checker.check, foldDecls_fst]

/-- The issue slice `Check` returns, in closed form. -/
theorem checkIssues_eq (c : Checker) (f : File) :
    c.checkIssues f = (locatedIfs f).filterMap (report c.MinComplexity) := by
  simp [Checker.checkIssues, check_fst]

/-- With no debug sink attached, folding the per-declaration step writes
nothing. -/
theorem foldDecls_snd_no_writer (f : File) (c : Checker) (log : List String)
    (hw : c.debugWriter = false) :
    (f.foldl checkDeclStep (c, log)).2 = log := by
  induction f generalizing c log with
  | nil => simp
  | cons d f ih =>
    cases d with
    | funcDecl ob =>
      cases ob with
      | none => simpa only [List.foldl_cons, checkDeclStep] using ih c log hw
      | some body =>
        simp only [List.foldl_cons, checkDeclStep]
        have h2 : (body.foldl checkFuncStep (c, log)).1.debugWriter = false := by
          rw [foldFuncs_fst]; exact hw
        have hpair : body.foldl checkFuncStep (c, log)
            = ((body.foldl checkFuncStep (c, log)).1, log) :=
          Prod.ext rfl (foldFuncs_snd_no_writer body c log hw)
        rw [hpair]
        exact ih _ _ h2
    | other => simpa only [List.foldl_cons, checkDeclStep] using ih c log hw

/-- With no debug sink attached, `Check` writes nothing. -/
theorem check_snd_no_writer (c : Checker) (f : File)
    (hw : c.debugWriter = false) : (c.check f).2 = [] := by
  simp only [Checker.check]
  exact foldDecls_snd_no_writer f _ [] hw

/-- Reporting with threshold `k ≥ 0` keeps exactly the issues of the
threshold-0 run whose complexity reaches `k`, in order. -/
theorem report_filterMap_filter (l : List Stmt) (k : Int) :
    l.filterMap (report k)
      = (l.filterMap (report 0)).filter (fun i => decide (k ≤ i.complexity)) := by
  induction l with
  | nil => simp
  | cons s l ih =>
    cases s with
    | ifStmt pos cond body els =>
      have h0 : report 0 (Stmt.ifStmt pos cond body els)
          = some ⟨pos, scoreIf (Stmt.ifStmt pos cond body els),
              msgFor pos cond (scoreIf (Stmt.ifStmt pos cond body els))⟩ := by
        simp [report, not_lt.mpr (scoreIf_nonneg (Stmt.ifStmt pos cond body els))]
      by_cases hlt : scoreIf (Stmt.ifStmt pos cond body els) < k
      · have hk1 : report k (Stmt.ifStmt pos cond body els) = none := by
          simp [report, hlt]
        have hp : ¬ (k ≤ scoreIf (Stmt.ifStmt pos cond body els)) := not_le.mpr hlt
        simp [List.filterMap_cons, hk1, h0, List.filter_cons, hp, ih]
      · have hk1 : report k (Stmt.ifStmt pos cond body els)
            = some ⟨pos, scoreIf (Stmt.ifStmt pos cond body els),
                msgFor pos cond (scoreIf (Stmt.ifStmt pos cond body els))⟩ := by
          simp [report, hlt]
        have hp : k ≤ scoreIf (Stmt.ifStmt pos cond body els) := not_lt.mp hlt
        simp [List.filterMap_cons, hk1, h0, List.filter_cons, hp, ih]
    | block ss => simpa only [List.filterMap_cons, report] using ih
    | funcLit ss => simpa only [List.filterMap_cons, report] using ih
    | other ss => simpa only [List.filterMap_cons, report] using ih

/-- Every `elseifChain` is an if statement with an empty then-block. -/
theorem elseifChain_shape (p : Position) (c : Option String) (k : Nat) :
    ∃ e, elseifChain p c k = Stmt.ifStmt p c [] e := by
  cases k with
  | zero => exact ⟨none, rfl⟩
  | succ m => exact ⟨some (elseifChain p c m), rfl⟩

/-- Contribution of an `else if` chain with `k` continuations: `1 + k`
when the head itself is reached as a continuation, `n + k` otherwise —
each continuation a flat `+1`, whatever the depth `n`. -/
theorem elseifChain_delta (p : Position) (c : Option String) (k : Nat) (n : Int) :
    delta true (elseifChain p c k) n = 1 + k
    ∧ delta false (elseifChain p c k) n = n + k := by
  induction k generalizing n with
  | zero => constructor <;> simp [elseifChain, delta, deltaList]
  | succ m ih =>
    obtain ⟨e, he⟩ := elseifChain_shape p c m
    have step : ∀ b : Bool, delta b (elseifChain p c (m + 1)) n
        = (if b then 1 else n) + delta true (elseifChain p c m) n := by
      intro b
      conv_lhs => rw [show elseifChain p c (m + 1)
        = Stmt.ifStmt p c [] (some (elseifChain p c m)) from rfl, he]
      simp only [delta, deltaList]
      rw [← he]
      ring_nf
    constructor
    · rw [step true, (ih n).1, if_pos rfl]
      push_cast
      ring
    · rw [step false, (ih n).1, if_neg Bool.false_ne_true]
      push_cast
      ring

/-! ## Claims -/

/-- Claim C1: an if statement with no nested conditional and no else
clause scores 0; single-level then-nesting scores 1; two-level
then-nesting scores 3 (1 + 2); an outer if holding two sibling
nested-ifs, each holding one further nested if, scores 6; and sibling
contributions accumulate additively at depth-proportional weight. -/
theorem claim_nested_if_scores :
    (∀ (p : Position) (c : Option String) (body : List Stmt),
        ifFreeList body = true → scoreIf (Stmt.ifStmt p c body none) = 0)
    ∧ (∀ (p1 p2 : Position) (c1 c2 : Option String),
        scoreIf (Stmt.ifStmt p1 c1 [Stmt.ifStmt p2 c2 [] none] none) = 1)
    ∧ (∀ (p1 p2 p3 : Position) (c1 c2 c3 : Option String),
        scoreIf (Stmt.ifStmt p1 c1
          [Stmt.ifStmt p2 c2 [Stmt.ifStmt p3 c3 [] none] none] none) = 3)
    ∧ (∀ (p1 p2 p3 p4 p5 : Position) (c1 c2 c3 c4 c5 : Option String),
        scoreIf (Stmt.ifStmt p1 c1
          [Stmt.ifStmt p2 c2 [Stmt.ifStmt p3 c3 [] none] none,
           Stmt.ifStmt p4 c4 [Stmt.ifStmt p5 c5 [] none] none] none) = 6)
    ∧ (∀ (ss1 ss2 : List Stmt) (cc n : Int),
        (walkList ⟨cc, n⟩ (ss1 ++ ss2)).complexity
          = cc + (walkList ⟨0, n⟩ ss1).complexity
              + (walkList ⟨0, n⟩ ss2).complexity) := by
  refine ⟨?_, ?_, ?_, ?_, ?_⟩
  · intro p c body h
    rw [scoreIf_delta]
    simp [delta, ifFreeList_delta body 1 h]
  · intro p1 p2 c1 c2
    rw [scoreIf_delta]
    norm_num [delta, deltaList]
  · intro p1 p2 p3 c1 c2 c3
    rw [scoreIf_delta]
    norm_num [delta, deltaList]
  · intro p1 p2 p3 p4 p5 c1 c2 c3 c4 c5
    rw [scoreIf_delta]
    norm_num [delta, deltaList]
  · intro ss1 ss2 cc n
    rw [walkList_delta, walkList_delta, walkList_delta, deltaList_append]
    simp only
    ring

/-- Witness for C1: the if-freeness hypothesis discharged on a concrete
body. -/
theorem claim_nested_if_scores_witness :
    ifFreeList [Stmt.other []] = true
    ∧ scoreIf (Stmt.ifStmt ⟨"a.go", 78, 9, 2⟩ (some "b1") [Stmt.other []] none) = 0 :=
  ⟨by decide, claim_nested_if_scores.1 ⟨"a.go", 78, 9, 2⟩ (some "b1")
      [Stmt.other []] (by decide)⟩

/-- Claim C2: an `else if` chain with `k` continuations and no further
nesting scores exactly `k` when scored by `checkIf`; more generally,
walked at any surrounding depth `n`, the chain adds `n` for its head and
a flat `+1` for each continuation, independent of `n` and of how many
continuations precede. -/
theorem claim_elseif_chain_scores (p : Position) (c : Option String) (k : Nat) :
    scoreIf (elseifChain p c k) = k
    ∧ ∀ (cc n : Int),
        walk ⟨cc, n⟩ false (elseifChain p c k) = ⟨cc + n + k, n⟩ := by
  constructor
  · rw [scoreIf_delta, (elseifChain_delta p c k 0).2]
    ring
  · intro cc n
    rw [walk_delta]
    simp only [(elseifChain_delta p c k n).2]
    exact congrArg (fun z => visitor.mk z n) (by ring)

/-- Claim C3: a conditional reached as an `else if` continuation adds its
flat `+1` and its then-block children are charged at depth `n + 1` — the
same depth `deltaList · (n + 1)` at which the head's own then-block
children are charged, i.e. as if the else-if level did not exist; the
concrete shape of testdata/c.go lines 14–20 scores 4 (0 + 1 + 1 + 2). -/
theorem claim_elseif_no_extra_depth :
    (∀ (p1 p2 : Position) (c1 c2 : Option String) (bA bB : List Stmt) (cc n : Int),
        walk ⟨cc, n⟩ false (Stmt.ifStmt p1 c1 bA (some (Stmt.ifStmt p2 c2 bB none)))
          = ⟨cc + n + deltaList bA (n + 1) + 1 + deltaList bB (n + 1), n⟩)
    ∧ scoreIf (Stmt.ifStmt ⟨"c.go", 145, 14, 2⟩ (some "b1")
        [Stmt.ifStmt ⟨"c.go", 160, 15, 3⟩ (some "b2") []
          (some (Stmt.ifStmt ⟨"c.go", 175, 16, 10⟩ (some "b3")
            [Stmt.ifStmt ⟨"c.go", 190, 17, 4⟩ (some "b4") [] none] none))] none) = 4 := by
  constructor
  · intro p1 p2 c1 c2 bA bB cc n
    rw [walk_delta]
    simp only [delta, deltaList]
    refine congrArg (fun z => visitor.mk z n) ?_
    simp only [if_neg Bool.false_ne_true, if_true, if_pos rfl]
    ring
  · decide

/-- Counterexample to C4: an if statement whose plain else block holds no
conditional at all still scores 1 — the else block itself is charged a
flat +1, where the claim ("the else block itself adds no charge beyond"
the depth-proportional charges of conditionals inside it) demands 0. -/
theorem claim_plain_else_cex :
    scoreIf (Stmt.ifStmt ⟨"c.go", 56, 6, 2⟩ (some "b1") []
        (some (Stmt.block []))) = 1
    ∧ scoreIf (Stmt.ifStmt ⟨"c.go", 56, 6, 2⟩ (some "b1") []
        (some (Stmt.block []))) ≠ 0 := by
  decide

/-- Amended C4: for every if statement whose else clause is a plain
block, the else block itself is charged a flat +1, traversal descends
into it at depth `n + 1` — one more than the if's own level, the same
depth at which then-block children are charged — and it backs out with
the parent's nesting count restored to `n`. -/
theorem claim_plain_else_amended (p : Position) (c : Option String)
    (bA bE : List Stmt) (cc n : Int) :
    walk ⟨cc, n⟩ false (Stmt.ifStmt p c bA (some (Stmt.block bE)))
      = ⟨cc + n + deltaList bA (n + 1) + 1 + deltaList bE (n + 1), n⟩ := by
  rw [walk_delta]
  simp only [delta]
  refine congrArg (fun z => visitor.mk z n) ?_
  simp only [if_neg Bool.false_ne_true, if_true, if_pos rfl]
  ring

/-- Claim C5: for every parsed file and every threshold `k ≥ 0`,
checking with minimum score `k` returns exactly the subset of the
threshold-0 issues whose complexity is at least `k` (inclusive
boundary), in the same relative order. -/
theorem claim_min_score_filter (f : File) (k : Int) (w w' : Bool)
    (is is' : List Issue) (_hk : 0 ≤ k) :
    (Checker.mk k w is).checkIssues f
      = ((Checker.mk 0 w' is').checkIssues f).filter
          (fun i => decide (k ≤ i.complexity)) := by
  rw [checkIssues_eq, checkIssues_eq]
  exact report_filterMap_filter (locatedIfs f) k

/-- Witness for C5: a file with a zero-score if and a score-1 if,
threshold 1. -/
theorem claim_min_score_filter_witness :
    (0 : Int) ≤ 1
    ∧ (Checker.mk 1 false []).checkIssues
        [Decl.funcDecl (some
          [Stmt.ifStmt ⟨"a.go", 20, 3, 2⟩ (some "b0") [] none,
           Stmt.ifStmt ⟨"a.go", 78, 9, 2⟩ (some "b1")
             [Stmt.ifStmt ⟨"a.go", 95, 10, 3⟩ (some "b2") [] none] none])]
      = ((Checker.mk 0 false []).checkIssues
          [Decl.funcDecl (some
            [Stmt.ifStmt ⟨"a.go", 20, 3, 2⟩ (some "b0") [] none,
             Stmt.ifStmt ⟨"a.go", 78, 9, 2⟩ (some "b1")
               [Stmt.ifStmt ⟨"a.go", 95, 10, 3⟩ (some "b2") [] none] none])]).filter
          (fun i => decide ((1 : Int) ≤ i.complexity)) :=
  ⟨by decide,
   claim_min_score_filter
     [Decl.funcDecl (some
       [Stmt.ifStmt ⟨"a.go", 20, 3, 2⟩ (some "b0") [] none,
        Stmt.ifStmt ⟨"a.go", 78, 9, 2⟩ (some "b1")
          [Stmt.ifStmt ⟨"a.go", 95, 10, 3⟩ (some "b2") [] none] none])]
     1 false false [] [] (by decide)⟩

/-- Counterexample to C6: in this file the only if statements sit inside
a function literal nested in an ordinary statement, yet `Check` reports
an issue for the one reachable only by crossing the literal — the
located ifs do cross function-literal boundaries, where the claim says
they never do (predicting an empty issue list here). -/
theorem claim_top_level_only_cex :
    (Checker.mk 1 false []).checkIssues
        [Decl.funcDecl (some [Stmt.other [Stmt.funcLit
          [Stmt.ifStmt ⟨"x.go", 5, 3, 2⟩ (some "b1")
            [Stmt.ifStmt ⟨"x.go", 9, 4, 3⟩ (some "b2") [] none] none]]])] ≠ []
    ∧ ((Checker.mk 1 false []).checkIssues
        [Decl.funcDecl (some [Stmt.other [Stmt.funcLit
          [Stmt.ifStmt ⟨"x.go", 5, 3, 2⟩ (some "b1")
            [Stmt.ifStmt ⟨"x.go", 9, 4, 3⟩ (some "b2") [] none] none]]])]).length = 1
    ∧ (findIfs (Stmt.other [Stmt.funcLit
        [Stmt.ifStmt ⟨"x.go", 5, 3, 2⟩ (some "b1")
          [Stmt.ifStmt ⟨"x.go", 9, 4, 3⟩ (some "b2") [] none] none]])).length = 1 := by
  refine ⟨by decide, by decide, by decide⟩

/-- Amended C6: `Check` reports an Issue exactly for the located ifs —
the pre-order enumeration that stops at each if statement (so an if
nested inside another if is never independently reported and only feeds
its enclosing located if's score) but does descend into nested function
literals. -/
theorem claim_top_level_only_amended :
    (∀ (c : Checker) (f : File),
        c.checkIssues f = (locatedIfs f).filterMap (report c.MinComplexity))
    ∧ (∀ (p : Position) (cd : Option String) (b : List Stmt) (e : Option Stmt),
        findIfs (Stmt.ifStmt p cd b e) = [Stmt.ifStmt p cd b e])
    ∧ (∀ ss : List Stmt, findIfs (Stmt.funcLit ss) = findIfsList ss) :=
  ⟨fun c f => checkIssues_eq c f,
   fun p cd b e => by simp [findIfs],
   fun ss => by simp [findIfs]⟩

/-- Claim C7: `Check` refreshes its issue slice, so a second run on the
same checker returns the same issues; the result never depends on
whatever issues were accumulated before; and the issues of a function
body split as the concatenation of the issues of its parts, so scoring
one top-level if never affects a sibling. -/
theorem claim_check_idempotent :
    (∀ (c : Checker) (f : File),
        ((c.check f).1.check f).1.issues = (c.check f).1.issues)
    ∧ (∀ (c : Checker) (f : File) (is : List Issue),
        ({ c with issues := is }.check f).1.issues = (c.check f).1.issues)
    ∧ (∀ (k : Int) (w : Bool) (is : List Issue) (ss1 ss2 : List Stmt),
        (Checker.mk k w is).checkIssues [Decl.funcDecl (some (ss1 ++ ss2))]
          = (Checker.mk k w is).checkIssues [Decl.funcDecl (some ss1)]
            ++ (Checker.mk k w is).checkIssues [Decl.funcDecl (some ss2)]) := by
  refine ⟨?_, ?_, ?_⟩
  · intro c f
    rw [check_fst, check_fst]
  · intro c f is
    rw [check_fst, check_fst]
  · intro k w is ss1 ss2
    rw [checkIssues_eq, checkIssues_eq, checkIssues_eq]
    simp [locatedIfs, findIfsList_append, List.filterMap_append]

/-- Claim C8: attaching or detaching the debug sink never changes the
returned issue list, and with no sink attached (the default) `Check`
writes nothing at all. -/
theorem claim_debug_noninterference (c : Checker) (f : File) :
    ({ c with debugWriter := true }.check f).1.issues
      = ({ c with debugWriter := false }.check f).1.issues
    ∧ ({ c with debugWriter := false }.check f).2 = [] := by
  constructor
  · rw [check_fst, check_fst]
  · exact check_snd_no_writer _ f rfl

/-- Claim C9: when the pretty-printer fails on the condition
(`cond = none`), `checkIf` still appends the Issue with its exact
complexity, the message carries the empty condition text, and the
failure is reported only through the debug channel (written iff a sink
is attached); scoring is never aborted. -/
theorem claim_render_failure_recovery (c : Checker) (p : Position)
    (b : List Stmt) (e : Option Stmt)
    (h : c.MinComplexity ≤ scoreIf (Stmt.ifStmt p none b e)) :
    (c.checkIf (Stmt.ifStmt p none b e)).1.issues
      = c.issues ++ [⟨p, scoreIf (Stmt.ifStmt p none b e),
          errformat p.filename p.line p.column
            ("`if ` is nested (complexity: "
              ++ toString (scoreIf (Stmt.ifStmt p none b e)) ++ ")")⟩]
    ∧ (c.checkIf (Stmt.ifStmt p none b e)).2
        = c.debug "failed to convert condition into string" := by
  have hlt : ¬ (walk newVisitor false (Stmt.ifStmt p none b e)).complexity
      < c.MinComplexity := not_lt.mpr h
  constructor
  · rw [checkIf_fst]
    simp [report, msgFor, not_lt.mpr h]
  · simp [Checker.checkIf, hlt, Checker.makeMessage]

/-- Witness for C9: a sink-attached checker, threshold 0, on a lone if
with an unprintable condition. -/
theorem claim_render_failure_recovery_witness :
    (Checker.mk 0 true []).MinComplexity
        ≤ scoreIf (Stmt.ifStmt ⟨"x.go", 1, 2, 3⟩ none [] none)
    ∧ (((Checker.mk 0 true []).checkIf
          (Stmt.ifStmt ⟨"x.go", 1, 2, 3⟩ none [] none)).1.issues
        = [⟨⟨"x.go", 1, 2, 3⟩, scoreIf (Stmt.ifStmt ⟨"x.go", 1, 2, 3⟩ none [] none),
            errformat "x.go" 2 3
              ("`if ` is nested (complexity: "
                ++ toString (scoreIf (Stmt.ifStmt ⟨"x.go", 1, 2, 3⟩ none [] none)) ++ ")")⟩]
      ∧ ((Checker.mk 0 true []).checkIf
          (Stmt.ifStmt ⟨"x.go", 1, 2, 3⟩ none [] none)).2
        = (Checker.mk 0 true []).debug "failed to convert condition into string") :=
  ⟨by decide,
   claim_render_failure_recovery (Checker.mk 0 true []) ⟨"x.go", 1, 2, 3⟩ [] none
     (by decide)⟩

/-- Claim C10: the visitor's nesting counter is balanced — after walking
any node the nesting field equals its value before the call — and from a
non-negative depth the complexity never decreases, so every score
`checkIf` computes is a non-negative integer. -/
theorem claim_visitor_balanced (b : Bool) (s : Stmt) (cc n : Int) :
    (walk ⟨cc, n⟩ b s).nesting = n
    ∧ (0 ≤ n → cc ≤ (walk ⟨cc, n⟩ b s).complexity)
    ∧ 0 ≤ scoreIf s := by
  refine ⟨?_, ?_, scoreIf_nonneg s⟩
  · rw [walk_delta]
  · intro hn
    rw [walk_delta]
    have := delta_nonneg b s n hn
    simp only
    omega

/-- Witness for C10: the balance and monotonicity at depth 0 on a
concrete statement. -/
theorem claim_visitor_balanced_witness :
    (0 : Int) ≤ 0
    ∧ (0 : Int) ≤ (walk ⟨0, 0⟩ false
        (Stmt.ifStmt ⟨"w.go", 1, 1, 1⟩ (some "b1") [] none)).complexity :=
  ⟨by decide,
   (claim_visitor_balanced false
     (Stmt.ifStmt ⟨"w.go", 1, 1, 1⟩ (some "b1") [] none) 0 0).2.1 (by decide)⟩

end Nestif
